import Mathlib

/-!
Verification of the resilience-and-event core of the aiops platform:
the circuit breaker (`app/utils/circuit_breaker.py`), the priority
notification queue (`app/services/notification_service.py`) and the
log streaming / anomaly detection pipeline
(`app/services/streaming_service.py`).

Python floats used for wall-clock times and scores are embedded as `ℚ`
(every value of `time.time()` is a finite decimal, and the comparisons
the code performs on them are exact at the magnitudes involved).
Python's non-negative counters are embedded as `ℕ`.
-/

namespace AiOps

/-! ## Circuit breaker (`app/utils/circuit_breaker.py`) -/

/-- `CircuitState` enum: CLOSED / OPEN / HALF_OPEN. -/
inductive CircuitState where
  | closed
  | «open»
  | halfOpen
deriving DecidableEq, Repr

/-- `CircuitBreakerConfig`: `failure_threshold` (default 5),
`success_threshold` (default 2), `timeout` seconds (default 30.0).
Excluded exception kinds are not listed here; whether a concrete raised
exception is an instance of `excluded_exceptions` is passed as a
boolean to `recordFailure`. -/
structure CircuitBreakerConfig where
  failureThreshold : ℕ := 5
  successThreshold : ℕ := 2
  timeout : ℚ := 30
deriving DecidableEq, Repr

/-- `CircuitBreakerState`: mutable state of one breaker. -/
structure CircuitBreakerState where
  state : CircuitState := .closed
  failureCount : ℕ := 0
  successCount : ℕ := 0
  lastFailureTime : ℚ := 0
deriving DecidableEq, Repr

/-- `CircuitBreaker._check_state` at wall-clock time `now`: returns
whether the request is allowed together with the updated state.
CLOSED always admits; OPEN admits iff `now - last_failure_time >=
timeout`, transitioning to HALF_OPEN with `success_count = 0`;
HALF_OPEN admits. -/
def checkState (cfg : CircuitBreakerConfig) (s : CircuitBreakerState) (now : ℚ) :
    Bool × CircuitBreakerState :=
  match s.state with
  | .closed => (true, s)
  | .open =>
      if cfg.timeout ≤ now - s.lastFailureTime then
        (true, { s with state := .halfOpen, successCount := 0 })
      else
        (false, s)
  | .halfOpen => (true, s)

/-- `CircuitBreaker._record_success`: in HALF_OPEN increment
`success_count` and close (zeroing `failure_count`) once it reaches
`success_threshold`; in CLOSED reset `failure_count`; in OPEN no-op. -/
def recordSuccess (cfg : CircuitBreakerConfig) (s : CircuitBreakerState) :
    CircuitBreakerState :=
  match s.state with
  | .halfOpen =>
      if cfg.successThreshold ≤ s.successCount + 1 then
        { s with state := .closed, successCount := s.successCount + 1, failureCount := 0 }
      else
        { s with successCount := s.successCount + 1 }
  | .closed => { s with failureCount := 0 }
  | .open => s

/-- `CircuitBreaker._record_failure` at time `now`; `excluded` says
whether the raised exception is an instance of
`config.excluded_exceptions` (in which case the method returns without
touching the state). Otherwise `failure_count` is incremented and
`last_failure_time` set to `now`; then HALF_OPEN reverts to OPEN, and
CLOSED opens once the incremented count reaches `failure_threshold`. -/
def recordFailure (cfg : CircuitBreakerConfig) (s : CircuitBreakerState)
    (now : ℚ) (excluded : Bool) : CircuitBreakerState :=
  if excluded then s
  else
    match s.state with
    | .halfOpen =>
        { s with failureCount := s.failureCount + 1, lastFailureTime := now,
                 state := .open }
    | .closed =>
        if cfg.failureThreshold ≤ s.failureCount + 1 then
          { s with failureCount := s.failureCount + 1, lastFailureTime := now,
                   state := .open }
        else
          { s with failureCount := s.failureCount + 1, lastFailureTime := now }
    | .open =>
        { s with failureCount := s.failureCount + 1, lastFailureTime := now }

/-- Outcome of the wrapped function, had it been invoked: it either
returns normally or raises an exception (excluded from failure
counting or not). -/
inductive CallOutcome where
  | success
  | failure (excluded : Bool)
deriving DecidableEq, Repr

/-- Observable trace of one `CircuitBreaker.call`: whether the wrapped
function was invoked, whether `CircuitBreakerOpenError` was raised,
and the state left behind. -/
structure CallTrace where
  invoked : Bool
  raisedBreakerOpen : Bool
  state : CircuitBreakerState
deriving DecidableEq, Repr

/-- `CircuitBreaker.call` at time `now`, the wrapped function's
behaviour given by `o`: `_check_state` decides admission; on rejection
`CircuitBreakerOpenError` is raised without invoking the function; on
admission the function runs and `_record_success` / `_record_failure`
updates the state (a genuine failure is re-raised, which is not the
breaker-open error). -/
def call (cfg : CircuitBreakerConfig) (s : CircuitBreakerState) (now : ℚ)
    (o : CallOutcome) : CallTrace :=
  let c := checkState cfg s now
  if c.1 then
    match o with
    | .success => ⟨true, false, recordSuccess cfg c.2⟩
    | .failure excl => ⟨true, false, recordFailure cfg c.2 now excl⟩
  else
    ⟨false, true, c.2⟩

/-- A sequence of recorded failures (with non-excluded exceptions) at
the given times, applied left to right. -/
def foldFailures (cfg : CircuitBreakerConfig) (s : CircuitBreakerState)
    (ts : List ℚ) : CircuitBreakerState :=
  ts.foldl (fun s t => recordFailure cfg s t false) s

/-- A run of `n` consecutive recorded successes. -/
def foldSuccesses (cfg : CircuitBreakerConfig) (s : CircuitBreakerState)
    (n : ℕ) : CircuitBreakerState :=
  (recordSuccess cfg)^[n] s

/-! ### Circuit breaker lemmas -/

theorem recordFailure_of_open (cfg : CircuitBreakerConfig)
    (s : CircuitBreakerState) (t : ℚ) (e : Bool) (h : s.state = .open) :
    (recordFailure cfg s t e).state = .open := by
  unfold recordFailure
  cases e with
  | true => simpa using h
  | false => rw [if_neg (by simp)]; rw [h]

theorem foldFailures_of_open (cfg : CircuitBreakerConfig) (ts : List ℚ) :
    ∀ s : CircuitBreakerState, s.state = .open →
      (foldFailures cfg s ts).state = .open := by
  induction ts with
  | nil => intro s h; simpa [foldFailures] using h
  | cons t ts ih =>
      intro s h
      exact ih _ (recordFailure_of_open cfg s t false h)

theorem foldFailures_trips (cfg : CircuitBreakerConfig) (ts : List ℚ) :
    ∀ s : CircuitBreakerState, s.state = .closed → ts ≠ [] →
      cfg.failureThreshold ≤ s.failureCount + ts.length →
      (foldFailures cfg s ts).state = .open := by
  induction ts with
  | nil => intro s _ hne _; exact absurd rfl hne
  | cons t ts ih =>
      intro s hs _ hle
      show (foldFailures cfg (recordFailure cfg s t false) ts).state = .open
      by_cases hth : cfg.failureThreshold ≤ s.failureCount + 1
      · have hopen : (recordFailure cfg s t false).state = .open := by
          unfold recordFailure
          rw [if_neg (by simp)]
          rw [hs]
          simp [hth]
        exact foldFailures_of_open cfg ts _ hopen
      · have hclosed : recordFailure cfg s t false =
            { s with failureCount := s.failureCount + 1, lastFailureTime := t } := by
          unfold recordFailure
          rw [if_neg (by simp)]
          rw [hs]
          simp [hth]
        rw [hclosed]
        have hne' : ts ≠ [] := by
          intro hnil
          rw [hnil] at hle
          simp at hle
          omega
        refine ih _ hs hne' ?_
        simp only [List.length_cons] at hle
        show cfg.failureThreshold ≤ s.failureCount + 1 + ts.length
        omega

/-- **C1.** From any CLOSED breaker (threshold ≥ 1), a sequence of
`failure_threshold` consecutive recorded failures with non-excluded
exceptions leaves the breaker OPEN, and the very next call made while
`now - last_failure_time < timeout` raises `CircuitBreakerOpenError`
without invoking the wrapped function. -/
theorem closed_breaker_trips_and_rejects (cfg : CircuitBreakerConfig)
    (s : CircuitBreakerState) (ts : List ℚ) (now : ℚ) (o : CallOutcome)
    (hpos : 0 < cfg.failureThreshold)
    (hs : s.state = .closed)
    (hlen : ts.length = cfg.failureThreshold)
    (hnow : now - (foldFailures cfg s ts).lastFailureTime < cfg.timeout) :
    (foldFailures cfg s ts).state = .open ∧
      (call cfg (foldFailures cfg s ts) now o).invoked = false ∧
      (call cfg (foldFailures cfg s ts) now o).raisedBreakerOpen = true := by
  have hne : ts ≠ [] := by
    intro h; rw [h] at hlen; simp at hlen; omega
  have hopen : (foldFailures cfg s ts).state = .open :=
    foldFailures_trips cfg ts s hs hne (by omega)
  refine ⟨hopen, ?_, ?_⟩ <;>
  · unfold call checkState
    rw [hopen]
    simp [not_le.mpr hnow]

/-- Witness for C1: default config (threshold 5), fresh breaker, five
failures at times 1..5, then a call at time 6 (within the 30 s
timeout). -/
theorem closed_breaker_trips_and_rejects_witness :
    (foldFailures {} {} [1, 2, 3, 4, 5]).state = .open ∧
      (call {} (foldFailures {} {} [1, 2, 3, 4, 5]) 6 .success).invoked = false ∧
      (call {} (foldFailures {} {} [1, 2, 3, 4, 5]) 6 .success).raisedBreakerOpen = true :=
  closed_breaker_trips_and_rejects {} {} [1, 2, 3, 4, 5] 6 .success
    (by decide) (by decide) (by decide)
    (by norm_num [foldFailures, recordFailure])

/-- **C2.** For an OPEN breaker: before `timeout` has elapsed since
`last_failure_time` a call is rejected (`CircuitBreakerOpenError`, no
invocation) and the state stays OPEN; once
`now - last_failure_time ≥ timeout`, the admission check admits the
call and moves the state to HALF_OPEN with `success_count = 0`. -/
theorem open_breaker_timeout_gate (cfg : CircuitBreakerConfig)
    (s : CircuitBreakerState) (now : ℚ) (o : CallOutcome)
    (hs : s.state = .open) :
    (now - s.lastFailureTime < cfg.timeout →
      (call cfg s now o).invoked = false ∧
      (call cfg s now o).raisedBreakerOpen = true ∧
      (call cfg s now o).state.state = .open) ∧
    (cfg.timeout ≤ now - s.lastFailureTime →
      (checkState cfg s now).1 = true ∧
      (checkState cfg s now).2.state = .halfOpen ∧
      (checkState cfg s now).2.successCount = 0) := by
  constructor
  · intro hlt
    unfold call checkState
    rw [hs]
    simp [not_le.mpr hlt, hs]
  · intro hge
    unfold checkState
    rw [hs]
    simp [hge]

/-- Witness for C2: breaker OPEN with `last_failure_time = 0`,
checked at times 10 (rejected) and 40 (admitted; 30 s timeout). -/
theorem open_breaker_timeout_gate_witness :
    ((call {} { state := .open, lastFailureTime := 0 } 10 .success).invoked = false ∧
      (call {} { state := .open, lastFailureTime := 0 } 10 .success).raisedBreakerOpen = true ∧
      (call {} { state := .open, lastFailureTime := 0 } 10 .success).state.state = .open) ∧
    ((checkState {} { state := .open, lastFailureTime := 0 } 40).1 = true ∧
      (checkState {} { state := .open, lastFailureTime := 0 } 40).2.state = .halfOpen ∧
      (checkState {} { state := .open, lastFailureTime := 0 } 40).2.successCount = 0) :=
  ⟨(open_breaker_timeout_gate {} { state := .open, lastFailureTime := 0 } 10
      .success rfl).1 (by norm_num),
   (open_breaker_timeout_gate {} { state := .open, lastFailureTime := 0 } 40
      .success rfl).2 (by norm_num)⟩

theorem foldSuccesses_of_closed (cfg : CircuitBreakerConfig) (n : ℕ) :
    ∀ s : CircuitBreakerState, s.state = .closed → s.failureCount = 0 →
      (foldSuccesses cfg s n).state = .closed ∧
        (foldSuccesses cfg s n).failureCount = 0 := by
  induction n with
  | zero => intro s h hf; exact ⟨h, hf⟩
  | succ n ih =>
      intro s h hf
      have hit : foldSuccesses cfg s (n + 1) =
          foldSuccesses cfg (recordSuccess cfg s) n :=
        Function.iterate_succ_apply _ _ _
      have hstep : recordSuccess cfg s = { s with failureCount := 0 } := by
        unfold recordSuccess; rw [h]
      rw [hit, hstep]
      exact ih _ h rfl

theorem foldSuccesses_recovers (cfg : CircuitBreakerConfig) (n : ℕ) :
    ∀ s : CircuitBreakerState, s.state = .halfOpen → 0 < n →
      cfg.successThreshold ≤ s.successCount + n →
      (foldSuccesses cfg s n).state = .closed ∧
        (foldSuccesses cfg s n).failureCount = 0 := by
  induction n with
  | zero => intro s _ h0 _; exact absurd h0 (by omega)
  | succ n ih =>
      intro s hs _ hth
      have hit : foldSuccesses cfg s (n + 1) =
          foldSuccesses cfg (recordSuccess cfg s) n :=
        Function.iterate_succ_apply _ _ _
      rw [hit]
      by_cases hreach : cfg.successThreshold ≤ s.successCount + 1
      · have hstep : recordSuccess cfg s =
            { s with state := .closed, successCount := s.successCount + 1,
                     failureCount := 0 } := by
          unfold recordSuccess; rw [hs]; simp [hreach]
        rw [hstep]
        exact foldSuccesses_of_closed cfg n _ rfl rfl
      · have hstep : recordSuccess cfg s =
            { s with successCount := s.successCount + 1 } := by
          unfold recordSuccess; rw [hs]; simp [hreach]
        rw [hstep]
        refine ih _ hs (by omega) ?_
        show cfg.successThreshold ≤ s.successCount + 1 + n
        omega

/-- **C3.** For a HALF_OPEN breaker (success threshold ≥ 1):
`success_threshold` consecutive recorded successes close the breaker
with `failure_count = 0`, while a single recorded failure with a
non-excluded exception immediately reverts it to OPEN. -/
theorem half_open_recovery_and_relapse (cfg : CircuitBreakerConfig)
    (s : CircuitBreakerState) (now : ℚ)
    (hpos : 0 < cfg.successThreshold)
    (hs : s.state = .halfOpen) :
    ((foldSuccesses cfg s cfg.successThreshold).state = .closed ∧
      (foldSuccesses cfg s cfg.successThreshold).failureCount = 0) ∧
    (recordFailure cfg s now false).state = .open := by
  refine ⟨foldSuccesses_recovers cfg cfg.successThreshold s hs hpos (by omega), ?_⟩
  unfold recordFailure
  rw [if_neg (by simp)]
  rw [hs]

/-- Witness for C3: default config (success threshold 2), HALF_OPEN
breaker with one prior failure; two successes close it, one failure
at time 7 reopens it. -/
theorem half_open_recovery_and_relapse_witness :
    ((foldSuccesses {} { state := .halfOpen, failureCount := 1 } 2).state = .closed ∧
      (foldSuccesses {} { state := .halfOpen, failureCount := 1 } 2).failureCount = 0) ∧
    (recordFailure {} { state := .halfOpen, failureCount := 1 } 7 false).state = .open :=
  half_open_recovery_and_relapse {} { state := .halfOpen, failureCount := 1 } 7
    (by decide) (by decide)

/-! ## Notifications (`app/services/notification_service.py`) -/

/-- `NotificationPriority` enum. -/
inductive NotificationPriority where
  | low
  | medium
  | high
  | critical
deriving DecidableEq, Repr

/-- The `.value` string of a `NotificationPriority`. -/
def NotificationPriority.value : NotificationPriority → String
  | .low => "low"
  | .medium => "medium"
  | .high => "high"
  | .critical => "critical"

/-- `NotificationPriority(v)`: parse an enum value string; raises
`ValueError` (here `none`) on anything else. -/
def NotificationPriority.ofValue : String → Option NotificationPriority
  | "low" => some .low
  | "medium" => some .medium
  | "high" => some .high
  | "critical" => some .critical
  | _ => none

/-- `NotificationChannel` enum. -/
inductive NotificationChannel where
  | telegram
  | email
  | slack
  | pagerduty
  | webhook
deriving DecidableEq, Repr

/-- The `.value` string of a `NotificationChannel`. -/
def NotificationChannel.value : NotificationChannel → String
  | .telegram => "telegram"
  | .email => "email"
  | .slack => "slack"
  | .pagerduty => "pagerduty"
  | .webhook => "webhook"

/-- `NotificationChannel(v)`: parse an enum value string. -/
def NotificationChannel.ofValue : String → Option NotificationChannel
  | "telegram" => some .telegram
  | "email" => some .email
  | "slack" => some .slack
  | "pagerduty" => some .pagerduty
  | "webhook" => some .webhook
  | _ => none

/-- The `Notification` dataclass. The JSON-representable `metadata`
dict is embedded as a string-keyed association list (the queue and the
serializer pass it through untouched). -/
structure Notification where
  id : String
  title : String
  message : String
  priority : NotificationPriority
  channels : List NotificationChannel
  metadata : List (String × String) := []
  createdAt : String := ""
  retryCount : ℕ := 0
  maxRetries : ℕ := 3
deriving DecidableEq, Repr

/-- The flat record produced by `Notification.to_dict` — the persisted
shape (`id,title,message,priority,channels[],metadata{},created_at,
retry_count,max_retries`). -/
structure NotificationRecord where
  id : String
  title : String
  message : String
  priority : String
  channels : List String
  metadata : List (String × String)
  createdAt : String
  retryCount : ℕ
  maxRetries : ℕ
deriving DecidableEq, Repr

/-- `Notification.to_dict`. -/
def Notification.toDict (n : Notification) : NotificationRecord :=
  { id := n.id
    title := n.title
    message := n.message
    priority := n.priority.value
    channels := n.channels.map NotificationChannel.value
    metadata := n.metadata
    createdAt := n.createdAt
    retryCount := n.retryCount
    maxRetries := n.maxRetries }

/-- `[NotificationChannel(c) for c in data["channels"]]`: parse each
channel value, failing on the first invalid one. -/
def parseChannels : List String → Option (List NotificationChannel)
  | [] => some []
  | s :: rest => do
      let c ← NotificationChannel.ofValue s
      let cs ← parseChannels rest
      pure (c :: cs)

/-- `Notification.from_dict`: rebuilds a notification from the flat
record, failing (`ValueError`) when the priority or a channel value is
not a valid enum member. -/
def Notification.fromDict (r : NotificationRecord) : Option Notification := do
  let p ← NotificationPriority.ofValue r.priority
  let cs ← parseChannels r.channels
  pure
    { id := r.id
      title := r.title
      message := r.message
      priority := p
      channels := cs
      metadata := r.metadata
      createdAt := r.createdAt
      retryCount := r.retryCount
      maxRetries := r.maxRetries }

theorem priority_value_roundtrip (p : NotificationPriority) :
    NotificationPriority.ofValue p.value = some p := by
  cases p <;> rfl

theorem channel_value_roundtrip (c : NotificationChannel) :
    NotificationChannel.ofValue c.value = some c := by
  cases c <;> rfl

theorem channels_value_roundtrip (cs : List NotificationChannel) :
    parseChannels (cs.map NotificationChannel.value) = some cs := by
  induction cs with
  | nil => rfl
  | cons c cs ih =>
      simp [parseChannels, channel_value_roundtrip c, ih]

/-- **C10.** Serializing a notification with `to_dict` and
deserializing with `from_dict` round-trips exactly: every field (id,
title, message, priority, channels in order, metadata, created_at,
retry_count, max_retries) is recovered. -/
theorem notification_roundtrip (n : Notification) :
    Notification.fromDict n.toDict = some n := by
  unfold Notification.fromDict Notification.toDict
  simp [priority_value_roundtrip, channels_value_roundtrip]

/-! ### Retry with exponential backoff -/

/-- Result of `NotificationQueue.requeue_with_backoff`: the
notification (with its incremented retry count) is either moved to the
failed (dead-letter) store, or re-enqueued after `delay` seconds. -/
inductive RequeueAction where
  | movedToFailed (n : Notification)
  | requeued (n : Notification) (delay : ℕ)
deriving DecidableEq, Repr

/-- The notification carried by a `RequeueAction`. -/
def RequeueAction.notif : RequeueAction → Notification
  | .movedToFailed n => n
  | .requeued n _ => n

/-- Whether the action dead-lettered the notification. -/
def RequeueAction.isFailed : RequeueAction → Bool
  | .movedToFailed _ => true
  | .requeued _ _ => false

/-- The re-enqueue delay, when the notification was re-enqueued. -/
def RequeueAction.delay? : RequeueAction → Option ℕ
  | .movedToFailed _ => none
  | .requeued _ d => some d

/-- `NotificationQueue.requeue_with_backoff`: increment `retry_count`;
if it now exceeds `max_retries`, `_move_to_failed` (no re-enqueue);
otherwise sleep `min(300, 2**retry_count * 10)` seconds and re-enqueue. -/
def requeueWithBackoff (n : Notification) : RequeueAction :=
  let n' := { n with retryCount := n.retryCount + 1 }
  if n'.retryCount > n'.maxRetries then
    .movedToFailed n'
  else
    .requeued n' (min 300 (2 ^ n'.retryCount * 10))

/-- **C5.** `requeue_with_backoff` increments `retry_count` by exactly
one; it dead-letters the notification iff the incremented count
exceeds `max_retries` (so a notification entering with
`retry_count ≤ max_retries` never leaves with a count above
`max_retries + 1`), and otherwise re-enqueues it with delay
`min(300, 2^retry_count * 10)` seconds. -/
theorem requeue_backoff_policy (n : Notification) :
    (requeueWithBackoff n).notif.retryCount = n.retryCount + 1 ∧
    (requeueWithBackoff n).notif.maxRetries = n.maxRetries ∧
    ((requeueWithBackoff n).isFailed = true ↔ n.maxRetries < n.retryCount + 1) ∧
    ((requeueWithBackoff n).isFailed = false →
      (requeueWithBackoff n).notif.retryCount ≤ n.maxRetries ∧
      (requeueWithBackoff n).delay? = some (min 300 (2 ^ (n.retryCount + 1) * 10))) ∧
    (n.retryCount ≤ n.maxRetries →
      (requeueWithBackoff n).notif.retryCount ≤ n.maxRetries + 1) := by
  unfold requeueWithBackoff RequeueAction.notif RequeueAction.isFailed
    RequeueAction.delay?
  by_cases h : n.maxRetries < n.retryCount + 1
  all_goals simp [h]
  all_goals omega

/-- Witness for C5, exercised on both sides of the threshold: a
notification with `retry_count = 1, max_retries = 3` is re-enqueued
with delay `min(300, 2^2*10) = 40` s, and one with
`retry_count = 3, max_retries = 3` is dead-lettered with final count
`4 = max_retries + 1`. -/
theorem requeue_backoff_policy_witness :
    ((requeueWithBackoff ⟨"a", "t", "m", .high, [.telegram], [], "", 1, 3⟩).notif.retryCount = 2 ∧
      (requeueWithBackoff ⟨"a", "t", "m", .high, [.telegram], [], "", 1, 3⟩).delay? = some 40) ∧
    ((requeueWithBackoff ⟨"b", "t", "m", .high, [.telegram], [], "", 3, 3⟩).isFailed = true ∧
      (requeueWithBackoff ⟨"b", "t", "m", .high, [.telegram], [], "", 3, 3⟩).notif.retryCount ≤ 4) := by
  have h1 := requeue_backoff_policy ⟨"a", "t", "m", .high, [.telegram], [], "", 1, 3⟩
  have h2 := requeue_backoff_policy ⟨"b", "t", "m", .high, [.telegram], [], "", 3, 3⟩
  refine ⟨⟨h1.1, ?_⟩, ⟨h2.2.2.1.mpr (by decide), h2.2.2.2.2 (by decide)⟩⟩
  have := (h1.2.2.2.1 (by decide)).2
  simpa using this

/-! ### Priority queue (`NotificationQueue.enqueue` / `dequeue`)

The queue is a Redis sorted set whose member is the JSON dump of
`to_dict(n)` and whose score is
`priority_scores[n.priority] + time.time() / 1e10`.  By
`notification_roundtrip`, `to_dict` is injective, so the member is
identified with the `Notification` itself and the sorted set is a list
of `(score, notification)` entries with pairwise-distinct
notifications. -/

/-- `priority_scores`: CRITICAL 0, HIGH 1, MEDIUM 2, LOW 3 (lower
score is dequeued first). -/
def priorityScore : NotificationPriority → ℚ
  | .critical => 0
  | .high => 1
  | .medium => 2
  | .low => 3

/-- The zadd score computed by `enqueue` at wall-clock time `t`. -/
def enqueueScore (p : NotificationPriority) (t : ℚ) : ℚ :=
  priorityScore p + t / 10 ^ 10

/-- A queue snapshot: the entries of the sorted set. -/
abbrev NQueue := List (ℚ × Notification)

/-- `ZADD`: update the member's score if it is already in the set,
otherwise insert it. -/
def zadd (q : NQueue) (score : ℚ) (n : Notification) : NQueue :=
  if q.any (fun e => e.2 = n) then
    q.map (fun e => if e.2 = n then (score, n) else e)
  else
    q ++ [(score, n)]

/-- `NotificationQueue.enqueue` called at time `t`. -/
def enqueue (q : NQueue) (n : Notification) (t : ℚ) : NQueue :=
  zadd q (enqueueScore n.priority t) n

/-- `ZRANGE key 0 0` followed by `ZREM` of the returned member:
extract an entry of minimal score, returning it and the remaining
entries.  (Redis breaks score ties lexicographically on the member
string; here the leftmost minimal entry is taken — every run proved or
refuted below has pairwise-distinct scores, where the two rules
agree.) -/
def extractMin : NQueue → Option ((ℚ × Notification) × NQueue)
  | [] => none
  | e :: q =>
      match extractMin q with
      | none => some (e, [])
      | some (m, rest) =>
          if e.1 ≤ m.1 then some (e, q) else some (m, e :: rest)

/-- `NotificationQueue.dequeue`: highest-priority (lowest-score)
notification, or `none` when the queue is empty. -/
def dequeue (q : NQueue) : Option (Notification × NQueue) :=
  (extractMin q).map (fun x => (x.1.2, x.2))

theorem extractMin_none {l : NQueue} : extractMin l = none ↔ l = [] := by
  cases l with
  | nil => simp [extractMin]
  | cons e q =>
      simp only [extractMin]
      cases extractMin q with
      | none => simp
      | some m =>
          obtain ⟨m, rest⟩ := m
          by_cases h : e.1 ≤ m.1 <;> simp [h]

theorem extractMin_perm {l : NQueue} {m : ℚ × Notification} {rest : NQueue}
    (h : extractMin l = some (m, rest)) : l.Perm (m :: rest) := by
  induction l generalizing m rest with
  | nil => simp [extractMin] at h
  | cons e q ih =>
      simp only [extractMin] at h
      cases hq : extractMin q with
      | none =>
          rw [hq] at h
          obtain rfl := extractMin_none.mp hq
          simp only [Option.some.injEq, Prod.mk.injEq] at h
          obtain ⟨rfl, rfl⟩ := h
          exact List.Perm.refl _
      | some p =>
          obtain ⟨m', rest'⟩ := p
          rw [hq] at h
          by_cases hle : e.1 ≤ m'.1
          · simp only [hle, if_true, Option.some.injEq, Prod.mk.injEq] at h
            obtain ⟨rfl, rfl⟩ := h
            exact List.Perm.refl _
          · simp only [hle, if_false, Option.some.injEq, Prod.mk.injEq] at h
            obtain ⟨rfl, rfl⟩ := h
            exact ((ih hq).cons e).trans (List.Perm.swap m' e rest')

theorem extractMin_min {l : NQueue} {m : ℚ × Notification} {rest : NQueue}
    (h : extractMin l = some (m, rest)) : ∀ y ∈ l, m.1 ≤ y.1 := by
  induction l generalizing m rest with
  | nil => simp [extractMin] at h
  | cons e q ih =>
      simp only [extractMin] at h
      cases hq : extractMin q with
      | none =>
          rw [hq] at h
          obtain rfl := extractMin_none.mp hq
          simp only [Option.some.injEq, Prod.mk.injEq] at h
          obtain ⟨rfl, rfl⟩ := h
          intro y hy
          simp at hy
          rw [hy]
      | some p =>
          obtain ⟨m', rest'⟩ := p
          rw [hq] at h
          by_cases hle : e.1 ≤ m'.1
          · simp only [hle, if_true, Option.some.injEq, Prod.mk.injEq] at h
            obtain ⟨rfl, rfl⟩ := h
            intro y hy
            rcases List.mem_cons.mp hy with rfl | hy
            · exact le_refl _
            · exact le_trans hle (ih hq y hy)
          · simp only [hle, if_false, Option.some.injEq, Prod.mk.injEq] at h
            obtain ⟨rfl, rfl⟩ := h
            intro y hy
            rcases List.mem_cons.mp hy with rfl | hy
            · exact le_of_not_le hle
            · exact ih hq y hy

theorem extractMin_length {l : NQueue} {m : ℚ × Notification} {rest : NQueue}
    (h : extractMin l = some (m, rest)) : rest.length < l.length := by
  have := (extractMin_perm h).length_eq
  simp at this
  omega

/-- Repeatedly dequeue until the queue is empty, keeping the scores. -/
def drainPairs (l : NQueue) : NQueue :=
  match h : extractMin l with
  | none => []
  | some (m, rest) => m :: drainPairs rest
termination_by l.length
decreasing_by exact extractMin_length h

/-- The full dequeue order of a queue. -/
def drain (l : NQueue) : List Notification :=
  (drainPairs l).map Prod.snd

theorem drainPairs_eq_of_extract {l : NQueue} {m : ℚ × Notification}
    {rest : NQueue} (h : extractMin l = some (m, rest)) :
    drainPairs l = m :: drainPairs rest := by
  rw [drainPairs]
  split
  · rename_i h'
    rw [h'] at h
    exact absurd h (by simp)
  · rename_i m' rest' h'
    rw [h'] at h
    simp only [Option.some.injEq, Prod.mk.injEq] at h
    rw [h.1, h.2]

theorem drainPairs_eq_nil {l : NQueue} (h : extractMin l = none) :
    drainPairs l = [] := by
  rw [drainPairs]
  split
  · rfl
  · rename_i m' rest' h'
    rw [h'] at h
    exact absurd h (by simp)

theorem drainPairs_nil : drainPairs ([] : NQueue) = [] :=
  drainPairs_eq_nil rfl

theorem drainPairs_perm (l : NQueue) : (drainPairs l).Perm l := by
  have H : ∀ n (l : NQueue), l.length = n → (drainPairs l).Perm l := by
    intro n
    induction n using Nat.strong_induction_on with
    | _ n ih =>
        intro l hn
        cases h : extractMin l with
        | none =>
            rw [drainPairs_eq_nil h, extractMin_none.mp h]
        | some p =>
            obtain ⟨m, rest⟩ := p
            rw [drainPairs_eq_of_extract h]
            have hlen := extractMin_length h
            have hrest := ih rest.length (by omega) rest rfl
            exact (hrest.cons m).trans (extractMin_perm h).symm
  exact H l.length l rfl

theorem drainPairs_sorted (l : NQueue) :
    (drainPairs l).Pairwise (fun a b => a.1 ≤ b.1) := by
  have H : ∀ n (l : NQueue), l.length = n →
      (drainPairs l).Pairwise (fun a b => a.1 ≤ b.1) := by
    intro n
    induction n using Nat.strong_induction_on with
    | _ n ih =>
        intro l hn
        cases h : extractMin l with
        | none => rw [drainPairs_eq_nil h]; exact List.Pairwise.nil
        | some p =>
            obtain ⟨m, rest⟩ := p
            rw [drainPairs_eq_of_extract h]
            have hlen := extractMin_length h
            refine List.pairwise_cons.mpr ⟨?_, ih rest.length (by omega) rest rfl⟩
            intro y hy
            have hyl : y ∈ l := (extractMin_perm h).mem_iff.mpr
              (List.mem_cons_of_mem m ((drainPairs_perm rest).subset hy))
            exact extractMin_min h y hyl
  exact H l.length l rfl

/-- A sequence of `enqueue` calls, given as `(time, notification)`
pairs in call order, applied to the empty queue. -/
def buildQueue (input : List (ℚ × Notification)) : NQueue :=
  input.foldl (fun q e => enqueue q e.2 e.1) []

/-- The queue entry produced by enqueuing `e = (time, notification)`. -/
def entryOf (e : ℚ × Notification) : ℚ × Notification :=
  (enqueueScore e.2.priority e.1, e.2)

theorem zadd_of_not_mem {q : NQueue} {s : ℚ} {n : Notification}
    (h : ∀ e ∈ q, e.2 ≠ n) : zadd q s n = q ++ [(s, n)] := by
  unfold zadd
  rw [if_neg]
  simp only [List.any_eq_true, decide_eq_true_eq, not_exists, not_and]
  exact h

theorem buildQueue_eq_aux (input : List (ℚ × Notification)) :
    ∀ q : NQueue, (∀ e ∈ input, ∀ f ∈ q, f.2 ≠ e.2) →
      (input.map Prod.snd).Pairwise (· ≠ ·) →
      input.foldl (fun q e => enqueue q e.2 e.1) q = q ++ input.map entryOf := by
  induction input with
  | nil => intro q _ _; simp
  | cons e rest ih =>
      intro q hq hdist
      have hstep : enqueue q e.2 e.1 = q ++ [entryOf e] :=
        zadd_of_not_mem (fun f hf => hq e (List.mem_cons_self e rest) f hf)
      have hfold : (e :: rest).foldl (fun q e => enqueue q e.2 e.1) q =
          rest.foldl (fun q e => enqueue q e.2 e.1) (enqueue q e.2 e.1) := rfl
      rw [hfold, hstep]
      rw [List.map_cons, List.pairwise_cons] at hdist
      have hq' : ∀ e' ∈ rest, ∀ f ∈ q ++ [entryOf e], f.2 ≠ e'.2 := by
        intro e' he' f hf
        rcases List.mem_append.mp hf with hf | hf
        · exact hq e' (List.mem_cons_of_mem e he') f hf
        · simp only [List.mem_singleton] at hf
          subst hf
          exact hdist.1 e'.2 (List.mem_map_of_mem Prod.snd he')
      rw [ih _ hq' hdist.2]
      simp

/-- With pairwise-distinct notifications every `enqueue` inserts a new
member, so the queue holds exactly one scored entry per call. -/
theorem buildQueue_eq (input : List (ℚ × Notification))
    (hdist : (input.map Prod.snd).Pairwise (· ≠ ·)) :
    buildQueue input = input.map entryOf := by
  have := buildQueue_eq_aux input [] (by simp) hdist
  simpa [buildQueue] using this

theorem priorityScore_succ_le {p1 p2 : NotificationPriority}
    (h : priorityScore p1 < priorityScore p2) :
    priorityScore p1 + 1 ≤ priorityScore p2 := by
  cases p1 <;> cases p2 <;> norm_num [priorityScore] at h ⊢

theorem enqueueScore_lt_of_rank {p1 p2 : NotificationPriority} {t1 t2 : ℚ}
    (h1 : t1 < 10 ^ 10) (h2 : 0 ≤ t2)
    (h : priorityScore p1 < priorityScore p2) :
    enqueueScore p1 t1 < enqueueScore p2 t2 := by
  have hstep := priorityScore_succ_le h
  unfold enqueueScore
  have ht1 : t1 / 10 ^ 10 < 1 := by
    rw [div_lt_one (by norm_num : (0:ℚ) < 10 ^ 10)]
    exact h1
  have ht2 : 0 ≤ t2 / 10 ^ 10 := by positivity
  linarith

theorem enqueueScore_lt_of_time {p : NotificationPriority} {t1 t2 : ℚ}
    (h : t1 < t2) : enqueueScore p t1 < enqueueScore p t2 := by
  unfold enqueueScore
  have : t1 / 10 ^ 10 < t2 / 10 ^ 10 :=
    div_lt_div_of_pos_right h (by norm_num)
  linarith

/-- **C4 (amended).** For every sequence of enqueues of
pairwise-distinct notifications at strictly increasing enqueue times,
all below `10^10` seconds (true of every `time.time()` value until the
year 2286), repeated dequeue returns exactly the enqueued
notifications (first conjunct), in priority order CRITICAL, HIGH,
MEDIUM, LOW (second conjunct), and within each priority in enqueue
order, earliest first (third conjunct: per-priority subsequences are
preserved verbatim). -/
theorem queue_priority_fifo_order (input : List (ℚ × Notification))
    (htime : (input.map Prod.fst).Pairwise (· < ·))
    (hlo : ∀ e ∈ input, (0:ℚ) ≤ e.1)
    (hhi : ∀ e ∈ input, e.1 < 10 ^ 10)
    (hdist : (input.map Prod.snd).Pairwise (· ≠ ·)) :
    (drain (buildQueue input)).Perm (input.map Prod.snd) ∧
    (drain (buildQueue input)).Pairwise
      (fun a b => priorityScore a.priority ≤ priorityScore b.priority) ∧
    ∀ p : NotificationPriority,
      (drain (buildQueue input)).filter (fun n => n.priority = p) =
        (input.map Prod.snd).filter (fun n => n.priority = p) := by
  have hQ : buildQueue input = input.map entryOf := buildQueue_eq input hdist
  have hsndE : Prod.snd ∘ entryOf = (Prod.snd : ℚ × Notification → Notification) := rfl
  have hperm : (drainPairs (buildQueue input)).Perm (buildQueue input) :=
    drainPairs_perm _
  have hsorted : (drainPairs (buildQueue input)).Pairwise (fun a b => a.1 ≤ b.1) :=
    drainPairs_sorted _
  have hshape : ∀ x ∈ buildQueue input, ∃ e ∈ input, x = entryOf e := by
    rw [hQ]
    intro x hx
    obtain ⟨e, he, rfl⟩ := List.mem_map.mp hx
    exact ⟨e, he, rfl⟩
  have hmapsnd : (buildQueue input).map Prod.snd = input.map Prod.snd := by
    rw [hQ, List.map_map, hsndE]
  refine ⟨?_, ?_, ?_⟩
  · -- permutation
    rw [drain, ← hmapsnd]
    exact hperm.map Prod.snd
  · -- priority order
    rw [drain, List.pairwise_map]
    refine List.Pairwise.imp_of_mem ?_ hsorted
    intro a b ha hb hle
    obtain ⟨ea, hea, rfl⟩ := hshape a (hperm.subset ha)
    obtain ⟨eb, heb, rfl⟩ := hshape b (hperm.subset hb)
    by_contra hcon
    push_neg at hcon
    simp only [entryOf] at hle hcon
    exact absurd hle (not_le.mpr (enqueueScore_lt_of_rank (hhi eb heb) (hlo ea hea) hcon))
  · -- FIFO within each priority
    intro p
    set pred : Notification → Bool := fun n => decide (n.priority = p) with hpred
    have hQpair : (buildQueue input).Pairwise
        (fun a b => a.2.priority = b.2.priority → a.1 < b.1) := by
      rw [hQ, List.pairwise_map]
      have htime' : input.Pairwise (fun e f => e.1 < f.1) := List.pairwise_map.mp htime
      refine List.Pairwise.imp ?_ htime'
      intro e f hef heq
      have heq' : e.2.priority = f.2.priority := heq
      show enqueueScore e.2.priority e.1 < enqueueScore f.2.priority f.1
      rw [heq']
      exact enqueueScore_lt_of_time hef
    have hB : ((buildQueue input).filter (pred ∘ Prod.snd)).Pairwise
        (fun a b => a.1 < b.1) := by
      refine List.Pairwise.imp_of_mem ?_
        (List.Pairwise.sublist (List.filter_sublist _) hQpair)
      intro a b ha hb himp
      have hap : a.2.priority = p := by
        have := (List.mem_filter.mp ha).2
        simpa [hpred] using this
      have hbp : b.2.priority = p := by
        have := (List.mem_filter.mp hb).2
        simpa [hpred] using this
      exact himp (hap.trans hbp.symm)
    have hAB : ((drainPairs (buildQueue input)).filter (pred ∘ Prod.snd)).Perm
        ((buildQueue input).filter (pred ∘ Prod.snd)) :=
      hperm.filter _
    have hA_le : ((drainPairs (buildQueue input)).filter (pred ∘ Prod.snd)).Pairwise
        (fun a b => a.1 ≤ b.1) :=
      List.Pairwise.sublist (List.filter_sublist _) hsorted
    have hBnodup : (((buildQueue input).filter (pred ∘ Prod.snd)).map Prod.fst).Nodup :=
      List.Pairwise.imp (fun h => ne_of_lt h) (List.pairwise_map.mpr hB)
    have hAnodup : (((drainPairs (buildQueue input)).filter (pred ∘ Prod.snd)).map
        Prod.fst).Nodup :=
      ((hAB.map Prod.fst).nodup_iff).mpr hBnodup
    have hA_ne : ((drainPairs (buildQueue input)).filter (pred ∘ Prod.snd)).Pairwise
        (fun a b => a.1 ≠ b.1) :=
      List.pairwise_map.mp hAnodup
    have hA : ((drainPairs (buildQueue input)).filter (pred ∘ Prod.snd)).Pairwise
        (fun a b => a.1 < b.1) :=
      List.Pairwise.imp (fun h => lt_of_le_of_ne h.1 h.2) (hA_le.and hA_ne)
    haveI : IsAntisymm (ℚ × Notification) (fun a b => a.1 < b.1) :=
      ⟨fun a b h1 h2 => absurd (lt_trans h1 h2) (lt_irrefl _)⟩
    have hABeq : (drainPairs (buildQueue input)).filter (pred ∘ Prod.snd) =
        (buildQueue input).filter (pred ∘ Prod.snd) :=
      List.eq_of_perm_of_sorted hAB hA hB
    have hcompose : (pred ∘ Prod.snd) ∘ entryOf = pred ∘ Prod.snd := rfl
    calc (drain (buildQueue input)).filter pred
        = ((drainPairs (buildQueue input)).filter (pred ∘ Prod.snd)).map Prod.snd := by
          rw [drain, List.filter_map]
      _ = ((buildQueue input).filter (pred ∘ Prod.snd)).map Prod.snd := by rw [hABeq]
      _ = (input.filter (pred ∘ Prod.snd)).map Prod.snd := by
          rw [hQ, List.filter_map, List.map_map, hcompose, hsndE]
      _ = (input.map Prod.snd).filter pred := (List.filter_map _ _).symm

/-- A LOW-priority notification used in the concrete queue runs. -/
def demoLow : Notification :=
  ⟨"n-low", "low alert", "msg", .low, [.telegram], [], "", 0, 3⟩

/-- A CRITICAL-priority notification used in the concrete queue runs. -/
def demoCritical : Notification :=
  ⟨"n-crit", "critical alert", "msg", .critical, [.telegram], [], "", 0, 3⟩

/-- A MEDIUM-priority notification used in the concrete queue runs. -/
def demoMedium : Notification :=
  ⟨"n-med", "medium alert", "msg", .medium, [.telegram], [], "", 0, 3⟩

/-- A HIGH-priority notification used in the concrete queue runs. -/
def demoHigh : Notification :=
  ⟨"n-high", "high alert", "msg", .high, [.telegram], [], "", 0, 3⟩

/-- Enqueues in order LOW, CRITICAL, MEDIUM, HIGH at times 1, 2, 3, 4. -/
def demoInput : List (ℚ × Notification) :=
  [(1, demoLow), (2, demoCritical), (3, demoMedium), (4, demoHigh)]

/-- Witness for C4: on the spec's own scenario — priorities
[LOW, CRITICAL, MEDIUM, HIGH] enqueued at times 1..4 — the dequeue
order is CRITICAL, HIGH, MEDIUM, LOW, and the hypotheses of
`queue_priority_fifo_order` are all discharged concretely. -/
theorem queue_priority_fifo_order_witness :
    drain (buildQueue demoInput) = [demoCritical, demoHigh, demoMedium, demoLow] ∧
    ((drain (buildQueue demoInput)).Perm (demoInput.map Prod.snd) ∧
      (drain (buildQueue demoInput)).Pairwise
        (fun a b => priorityScore a.priority ≤ priorityScore b.priority) ∧
      ∀ p : NotificationPriority,
        (drain (buildQueue demoInput)).filter (fun n => n.priority = p) =
          (demoInput.map Prod.snd).filter (fun n => n.priority = p)) := by
  have hdist4 : (demoInput.map Prod.snd).Pairwise (· ≠ ·) := by
    show ([demoLow, demoCritical, demoMedium, demoHigh]).Pairwise (· ≠ ·)
    refine List.Pairwise.cons ?_ (List.Pairwise.cons ?_
      (List.Pairwise.cons ?_ (List.Pairwise.cons ?_ List.Pairwise.nil))) <;>
      intro b hb <;> fin_cases hb <;> decide
  constructor
  · have hbuild : buildQueue demoInput =
        [(enqueueScore .low 1, demoLow), (enqueueScore .critical 2, demoCritical),
         (enqueueScore .medium 3, demoMedium), (enqueueScore .high 4, demoHigh)] := by
      rw [buildQueue_eq demoInput hdist4]
      rfl
    have h1 : extractMin
        [(enqueueScore .low 1, demoLow), (enqueueScore .critical 2, demoCritical),
         (enqueueScore .medium 3, demoMedium), (enqueueScore .high 4, demoHigh)] =
        some ((enqueueScore .critical 2, demoCritical),
          [(enqueueScore .low 1, demoLow), (enqueueScore .medium 3, demoMedium),
           (enqueueScore .high 4, demoHigh)]) := by
      norm_num [extractMin, enqueueScore, priorityScore]
    have h2 : extractMin
        [(enqueueScore .low 1, demoLow), (enqueueScore .medium 3, demoMedium),
         (enqueueScore .high 4, demoHigh)] =
        some ((enqueueScore .high 4, demoHigh),
          [(enqueueScore .low 1, demoLow), (enqueueScore .medium 3, demoMedium)]) := by
      norm_num [extractMin, enqueueScore, priorityScore]
    have h3 : extractMin
        [(enqueueScore .low 1, demoLow), (enqueueScore .medium 3, demoMedium)] =
        some ((enqueueScore .medium 3, demoMedium),
          [(enqueueScore .low 1, demoLow)]) := by
      norm_num [extractMin, enqueueScore, priorityScore]
    have h4 : extractMin [(enqueueScore .low 1, demoLow)] =
        some ((enqueueScore .low 1, demoLow), ([] : NQueue)) := by
      norm_num [extractMin]
    rw [drain, hbuild, drainPairs_eq_of_extract h1, drainPairs_eq_of_extract h2,
      drainPairs_eq_of_extract h3, drainPairs_eq_of_extract h4, drainPairs_nil]
    rfl
  · refine queue_priority_fifo_order demoInput ?_ ?_ ?_ ?_
    · norm_num [demoInput, List.pairwise_cons]
    · intro e he
      simp only [demoInput, List.mem_cons, List.not_mem_nil, or_false] at he
      rcases he with rfl | rfl | rfl | rfl <;> norm_num
    · intro e he
      simp only [demoInput, List.mem_cons, List.not_mem_nil, or_false] at he
      rcases he with rfl | rfl | rfl | rfl <;> norm_num
    · exact hdist4

/-- A LOW notification enqueued at time 0 in the counterexample run. -/
def cexLow : Notification :=
  ⟨"c-low", "low alert", "msg", .low, [.telegram], [], "", 0, 3⟩

/-- A CRITICAL notification enqueued at time `4·10^10` in the
counterexample run. -/
def cexCritical : Notification :=
  ⟨"c-crit", "critical alert", "msg", .critical, [.telegram], [], "", 0, 3⟩

/-- Counterexample to C4 as stated: with unrestricted strictly
increasing enqueue times, enqueuing a LOW notification at time 0 and a
CRITICAL one at time `4·10^10` gives scores `3` and `4`, so the LOW
notification is dequeued *before* the CRITICAL one — the claimed
priority order fails because `time.time()/1e10` is folded additively
into the score and overwhelms the priority once the time gap reaches
`10^10` seconds. -/
theorem queue_priority_fifo_order_counterexample :
    cexLow.priority = .low ∧ cexCritical.priority = .critical ∧
    (0 : ℚ) < 4 * 10 ^ 10 ∧
    drain (enqueue (enqueue [] cexLow 0) cexCritical (4 * 10 ^ 10)) =
      [cexLow, cexCritical] := by
  refine ⟨rfl, rfl, by norm_num, ?_⟩
  have hs1 : enqueue [] cexLow 0 = [(enqueueScore .low 0, cexLow)] := rfl
  have hmem : ∀ e ∈ [(enqueueScore .low 0, cexLow)], e.2 ≠ cexCritical := by
    intro e he
    simp only [List.mem_singleton] at he
    subst he
    decide
  have hq : enqueue (enqueue [] cexLow 0) cexCritical (4 * 10 ^ 10) =
      [(enqueueScore .low 0, cexLow),
       (enqueueScore .critical (4 * 10 ^ 10), cexCritical)] := by
    rw [hs1]
    show zadd _ _ _ = _
    rw [zadd_of_not_mem hmem]
    rfl
  have h1 : extractMin
      [(enqueueScore .low 0, cexLow),
       (enqueueScore .critical (4 * 10 ^ 10), cexCritical)] =
      some ((enqueueScore .low 0, cexLow),
        [(enqueueScore .critical (4 * 10 ^ 10), cexCritical)]) := by
    norm_num [extractMin, enqueueScore, priorityScore]
  have h2 : extractMin
      [(enqueueScore .critical (4 * 10 ^ 10), cexCritical)] =
      some ((enqueueScore .critical (4 * 10 ^ 10), cexCritical), ([] : NQueue)) := by
    norm_num [extractMin]
  rw [drain, hq, drainPairs_eq_of_extract h1, drainPairs_eq_of_extract h2,
    drainPairs_nil]
  rfl

/-! ## Log streaming (`app/services/streaming_service.py`) -/

/-- The `LogEntry` dataclass. `metadata` (a JSON object) is embedded
as a string-keyed association list. -/
structure LogEntry where
  timestamp : String
  service : String
  level : String
  message : String
  source : String := ""
  metadata : List (String × String) := []
deriving DecidableEq, Repr

/-- `data.get(k)` on a string-keyed dict (keys unique; first match). -/
def dictGet (data : List (String × String)) (k : String) : Option String :=
  (data.find? (fun e => e.1 = k)).map Prod.snd

/-- `LogEntry.from_dict`.  `json.loads` of the `metadata` field sits
inside `try/except: pass`, so a failed parse falls back to `{}`;
`parse` is the JSON parser for object-of-strings payloads, universally
quantified so that malformed metadata (`parse` returning `none`) is
covered.  Every other field is `data.get(...)` with a default. -/
def LogEntry.fromDict (parse : String → Option (List (String × String)))
    (data : List (String × String)) : LogEntry :=
  let metadata :=
    match dictGet data "metadata" with
    | some s => (parse s).getD []
    | none => []
  { timestamp := (dictGet data "timestamp").getD ""
    service := (dictGet data "service").getD "unknown"
    level := (dictGet data "level").getD "info"
    message := (dictGet data "message").getD ""
    source := (dictGet data "source").getD ""
    metadata := metadata }

/-- **C9 (amended).** `LogEntry.from_dict` is total (any field map,
any metadata parse outcome decodes to an entry), and whenever the
`service` and `level` keys are absent or carry non-empty values, the
decoded `service` and `level` are non-empty — missing keys default to
`"unknown"` / `"info"`. -/
theorem fromDict_service_level_nonempty
    (parse : String → Option (List (String × String)))
    (data : List (String × String))
    (hs : dictGet data "service" ≠ some "")
    (hl : dictGet data "level" ≠ some "") :
    (LogEntry.fromDict parse data).service ≠ "" ∧
      (LogEntry.fromDict parse data).level ≠ "" := by
  unfold LogEntry.fromDict
  constructor
  · show (dictGet data "service").getD "unknown" ≠ ""
    cases h : dictGet data "service" with
    | none => simp
    | some v =>
        rw [h] at hs
        simpa using fun hv => hs (by rw [hv])
  · show (dictGet data "level").getD "info" ≠ ""
    cases h : dictGet data "level" with
    | none => simp
    | some v =>
        rw [h] at hl
        simpa using fun hv => hl (by rw [hv])

/-- Witness for C9: a map missing both keys and carrying metadata the
parser rejects still decodes with the defaults. -/
theorem fromDict_service_level_nonempty_witness :
    (LogEntry.fromDict (fun _ => none)
        [("message", "boom"), ("metadata", "\x7boops")]).service ≠ "" ∧
      (LogEntry.fromDict (fun _ => none)
        [("message", "boom"), ("metadata", "\x7boops")]).level ≠ "" :=
  fromDict_service_level_nonempty (fun _ => none)
    [("message", "boom"), ("metadata", "\x7boops")] (by decide) (by decide)

/-- Counterexample to C9 as stated: a field map may carry the
`service` key with an *empty-string* value (nothing upstream prevents
it — `to_dict` of a `LogEntry` with `service=""` produces exactly such
a map), and `data.get("service", "unknown")` then returns `""`: the
default applies only when the key is missing, so the decoded `service`
is empty. -/
theorem fromDict_service_level_nonempty_counterexample :
    (LogEntry.fromDict (fun _ => none) [("service", "")]).service = "" := by
  decide

/-! ## Anomaly detection (`AnomalyDetector` in
`app/services/streaming_service.py`) -/

/-- `self._error_window = 60` seconds. -/
def errorWindow : ℚ := 60

/-- `self._error_threshold = 10` errors per window. -/
def errorThreshold : ℕ := 10

/-- Mutable state of the detector: `_error_counts` (dict
service → count), `_last_reset`, `_alerted_services` (a set, embedded
as a duplicate-free list in insertion order). -/
structure DetectorState where
  errorCounts : List (String × ℕ)
  lastReset : ℚ
  alerted : List String
deriving DecidableEq, Repr

/-- `self._error_counts.get(service, 0)`. -/
def countOf (m : List (String × ℕ)) (k : String) : ℕ :=
  ((m.find? (fun e => e.1 = k)).map Prod.snd).getD 0

/-- `self._error_counts[service] = v`: dict assignment (update the
existing key or append a new binding). -/
def setCount (m : List (String × ℕ)) (k : String) (v : ℕ) : List (String × ℕ) :=
  if m.any (fun e => e.1 = k) then
    m.map (fun e => if e.1 = k then (k, v) else e)
  else
    m ++ [(k, v)]

/-- `str.lower()` (the level strings compared against are ASCII, for
which per-character lowering is exact). -/
def pyLower (s : String) : String :=
  ⟨s.data.map Char.toLower⟩

/-- `log.level.lower() in ["error", "critical", "fatal"]`. -/
def isErrorLevel (level : String) : Bool :=
  pyLower level = "error" ∨ pyLower level = "critical" ∨ pyLower level = "fatal"

/-- The Telegram message text built by `AnomalyDetector._trigger_alert`
(an f-string over the service name, the error count and the
threshold), sent via `telegram_service.send_message`. -/
def triggerAlertMessage (service : String) (errorCount : ℕ) : String :=
  "🚨 *Anomaly Detected*\nService: " ++ service ++
    ("\nErrors: " ++ (toString errorCount ++
      (" in last minute\nThreshold: " ++ toString errorThreshold)))

/-- The lazy window reset at the top of `process_log`: once
`now - last_reset > 60`, clear `_error_counts` and
`_alerted_services` and restart the window at `now`. -/
def resetIfElapsed (st : DetectorState) (now : ℚ) : DetectorState :=
  if now - st.lastReset > errorWindow then ⟨[], now, []⟩ else st

/-- `AnomalyDetector.process_log` at wall-clock time `now`: lazily
reset all counters and the alerted set once the window has elapsed
(`now - last_reset > 60`); count error-level entries per service; at
`>= threshold`, alert once per service per window.  The second
component is the Telegram alert message sent by `_trigger_alert`, if
any. -/
def processLog (st0 : DetectorState) (now : ℚ) (log : LogEntry) :
    DetectorState × Option String :=
  let st := resetIfElapsed st0 now
  if isErrorLevel log.level then
    let c := countOf st.errorCounts log.service + 1
    let st := { st with errorCounts := setCount st.errorCounts log.service c }
    if errorThreshold ≤ c then
      if log.service ∈ st.alerted then
        (st, none)
      else
        ({ st with alerted := st.alerted ++ [log.service] },
          some (triggerAlertMessage log.service c))
    else
      (st, none)
  else
    (st, none)

/-- Feed a list of `(time, entry)` pairs through the detector,
collecting the alert messages raised. -/
def runDetector (st : DetectorState) :
    List (ℚ × LogEntry) → DetectorState × List String
  | [] => (st, [])
  | e :: rest =>
      let r := processLog st e.1 e.2
      let rr := runDetector r.1 rest
      (rr.1, r.2.toList ++ rr.2)

/-- Detector state after `k` error-level entries for service `s`, all
inside the window that started at `t0`. -/
def stateAfter (s : String) (t0 : ℚ) (k : ℕ) : DetectorState :=
  ⟨if k = 0 then [] else [(s, k)], t0,
    if errorThreshold ≤ k then [s] else []⟩

theorem processLog_step (s : String) (t0 : ℚ) (k : ℕ) (t : ℚ) (log : LogEntry)
    (hsvc : log.service = s) (herr : isErrorLevel log.level = true)
    (htm : t - t0 ≤ errorWindow) :
    processLog (stateAfter s t0 k) t log =
      (stateAfter s t0 (k + 1),
        if k + 1 = errorThreshold then some (triggerAlertMessage s errorThreshold)
        else none) := by
  subst hsvc
  have hnoreset : resetIfElapsed (stateAfter log.service t0 k) t =
      stateAfter log.service t0 k := by
    unfold resetIfElapsed
    exact if_neg (not_lt.mpr htm)
  have hcount : countOf (stateAfter log.service t0 k).errorCounts log.service = k := by
    by_cases hk : k = 0
    · subst hk; simp [countOf, stateAfter]
    · simp [countOf, stateAfter, hk]
  have hset : setCount (stateAfter log.service t0 k).errorCounts log.service (k + 1) =
      [(log.service, k + 1)] := by
    by_cases hk : k = 0
    · subst hk; simp [setCount, stateAfter]
    · simp [setCount, stateAfter, hk]
  show (let st := resetIfElapsed (stateAfter log.service t0 k) t
    if isErrorLevel log.level then
      let c := countOf st.errorCounts log.service + 1
      let st' := { st with errorCounts := setCount st.errorCounts log.service c }
      if errorThreshold ≤ c then
        if log.service ∈ st'.alerted then (st', none)
        else ({ st' with alerted := st'.alerted ++ [log.service] },
          some (triggerAlertMessage log.service c))
      else (st', none)
    else (st, none)) = _
  rw [hnoreset]
  simp only [herr, if_true, hcount, hset]
  by_cases hth : errorThreshold ≤ k + 1
  · by_cases hk10 : k + 1 = errorThreshold
    · have hklt : ¬ errorThreshold ≤ k := by omega
      simp only [stateAfter, hklt, if_false, if_neg hklt]
      rw [if_pos hth]
      rw [if_neg (List.not_mem_nil log.service)]
      simp only [List.nil_append, hk10, if_pos hth]
      simp [hk10, errorThreshold]
    · have hkge : errorThreshold ≤ k := by omega
      simp only [stateAfter, if_pos hkge, if_pos hth]
      rw [if_pos (List.mem_singleton.mpr rfl)]
      simp [hk10]
  · have h1 : ¬ errorThreshold ≤ k := by omega
    have h2 : ¬ (k + 1 = errorThreshold) := by omega
    simp only [stateAfter, if_neg hth, if_neg h1, if_neg h2]
    simp

theorem runDetector_from (s : String) (t0 : ℚ) (pairs : List (ℚ × LogEntry)) :
    ∀ k : ℕ,
      (∀ e ∈ pairs, e.2.service = s) →
      (∀ e ∈ pairs, isErrorLevel e.2.level = true) →
      (∀ e ∈ pairs, e.1 - t0 ≤ errorWindow) →
      (runDetector (stateAfter s t0 k) pairs).1 =
          stateAfter s t0 (k + pairs.length) ∧
        (runDetector (stateAfter s t0 k) pairs).2 =
          (if k < errorThreshold ∧ errorThreshold ≤ k + pairs.length then
            [triggerAlertMessage s errorThreshold] else []) := by
  induction pairs with
  | nil =>
      intro k _ _ _
      refine ⟨rfl, ?_⟩
      rw [if_neg (by simp only [List.length_nil, Nat.add_zero]; omega)]
      rfl
  | cons e rest ih =>
      intro k hsvc herr htm
      have hstep := processLog_step s t0 k e.1 e.2
        (hsvc e (List.mem_cons_self e rest))
        (herr e (List.mem_cons_self e rest))
        (htm e (List.mem_cons_self e rest))
      have hrun : runDetector (stateAfter s t0 k) (e :: rest) =
          ((runDetector (processLog (stateAfter s t0 k) e.1 e.2).1 rest).1,
            (processLog (stateAfter s t0 k) e.1 e.2).2.toList ++
              (runDetector (processLog (stateAfter s t0 k) e.1 e.2).1 rest).2) := rfl
      rw [hrun, hstep]
      have hr := ih (k + 1)
        (fun x hx => hsvc x (List.mem_cons_of_mem e hx))
        (fun x hx => herr x (List.mem_cons_of_mem e hx))
        (fun x hx => htm x (List.mem_cons_of_mem e hx))
      refine ⟨?_, ?_⟩
      · rw [hr.1]
        simp only [List.length_cons]
        congr 1
        omega
      · rw [hr.2]
        by_cases hk10 : k + 1 = errorThreshold
        · rw [if_pos hk10]
          rw [if_neg (by omega), if_pos (by simp only [List.length_cons]; omega)]
          rfl
        · rw [if_neg hk10]
          simp only [Option.toList_none, List.nil_append, List.length_cons]
          by_cases hc : k + 1 < errorThreshold ∧ errorThreshold ≤ k + 1 + rest.length
          · rw [if_pos hc, if_pos (by omega)]
          · rw [if_neg hc, if_neg (by omega)]

/-- `process_log` on an entry arriving after the window elapsed
(`now - last_reset > 60`): the counters and the alerted set are
cleared before the entry is counted. -/
theorem processLog_of_reset (st : DetectorState) (now : ℚ) (log : LogEntry)
    (hlate : now - st.lastReset > errorWindow) :
    processLog st now log =
      (if isErrorLevel log.level then
        (if errorThreshold ≤ 1 then
          (⟨[(log.service, 1)], now, [log.service]⟩,
            some (triggerAlertMessage log.service 1))
        else (⟨[(log.service, 1)], now, []⟩, none))
      else (⟨[], now, []⟩, none)) := by
  have hreset : resetIfElapsed st now = ⟨[], now, []⟩ := by
    unfold resetIfElapsed
    exact if_pos hlate
  show (let st1 := resetIfElapsed st now
    if isErrorLevel log.level then
      let c := countOf st1.errorCounts log.service + 1
      let st' := { st1 with errorCounts := setCount st1.errorCounts log.service c }
      if errorThreshold ≤ c then
        if log.service ∈ st'.alerted then (st', none)
        else ({ st' with alerted := st'.alerted ++ [log.service] },
          some (triggerAlertMessage log.service c))
      else (st', none)
    else (st1, none)) = _
  rw [hreset]
  cases herrl : isErrorLevel log.level with
  | false => simp
  | true =>
      by_cases hth : errorThreshold ≤ 1 <;>
        simp [countOf, setCount, hth]

/-- **C6.** Within one window (all entry times at most 60 s after the
window start), a fresh detector fed only error-level entries of one
service raises no alert for the first 9 entries, exactly one alert on
the 10th, and none afterwards — the alert list of the whole run is
`[message]` iff the run has at least 10 entries, else `[]` (first
conjunct).  And whenever an entry arrives after the window has elapsed
(`now - last_reset > 60`), the per-service counters and the alerted
set are reset before it is counted (second conjunct). -/
theorem anomaly_window_threshold (s : String) (t0 : ℚ)
    (pairs : List (ℚ × LogEntry))
    (hsvc : ∀ e ∈ pairs, e.2.service = s)
    (herr : ∀ e ∈ pairs, isErrorLevel e.2.level = true)
    (htm : ∀ e ∈ pairs, e.1 - t0 ≤ errorWindow) :
    ((runDetector ⟨[], t0, []⟩ pairs).2 =
      if errorThreshold ≤ pairs.length then
        [triggerAlertMessage s errorThreshold] else []) ∧
    (∀ (st : DetectorState) (now : ℚ) (log : LogEntry),
      now - st.lastReset > errorWindow →
        (processLog st now log).1.lastReset = now ∧
        (processLog st now log).1.alerted =
          (if isErrorLevel log.level ∧ errorThreshold ≤ 1 then [log.service] else []) ∧
        (processLog st now log).1.errorCounts =
          (if isErrorLevel log.level then [(log.service, 1)] else [])) := by
  constructor
  · have h0 : stateAfter s t0 0 = ⟨[], t0, []⟩ := by
      simp [stateAfter, errorThreshold]
    have := (runDetector_from s t0 pairs 0 hsvc herr htm).2
    rw [h0] at this
    rw [this]
    by_cases hc : errorThreshold ≤ pairs.length
    · rw [if_pos (⟨by simp [errorThreshold], by omega⟩ :
        0 < errorThreshold ∧ errorThreshold ≤ 0 + pairs.length), if_pos hc]
    · rw [if_neg (by omega), if_neg hc]
  · intro st now log hlate
    rw [processLog_of_reset st now log hlate]
    cases herrl : isErrorLevel log.level with
    | false => simp [herrl]
    | true =>
        by_cases hth : errorThreshold ≤ 1 <;>
          simp [herrl, hth]

/-- An error-level entry for service `"X"` with the given level
string. -/
def c6log (lvl : String) : LogEntry :=
  ⟨"2024-01-01T00:00:00", "X", lvl, "boom", "", []⟩

/-- Ten error-level entries for `"X"` at times 1..10 (mixed-case
levels, all inside the 60 s window that started at 0). -/
def c6pairs : List (ℚ × LogEntry) :=
  [(1, c6log "error"), (2, c6log "ERROR"), (3, c6log "critical"),
   (4, c6log "FATAL"), (5, c6log "error"), (6, c6log "error"),
   (7, c6log "error"), (8, c6log "error"), (9, c6log "error"),
   (10, c6log "error")]

/-- Witness for C6: ten error-level entries for `"X"` inside one
window raise exactly one alert (at count 10), and an entry processed
at time 100 against a stale window started at 0 finds the counters
and the alerted set reset. -/
theorem anomaly_window_threshold_witness :
    (runDetector ⟨[], 0, []⟩ c6pairs).2 = [triggerAlertMessage "X" 10] ∧
    ((processLog ⟨[("X", 7)], 0, ["X"]⟩ 100 (c6log "error")).1.lastReset = 100 ∧
      (processLog ⟨[("X", 7)], 0, ["X"]⟩ 100 (c6log "error")).1.alerted = [] ∧
      (processLog ⟨[("X", 7)], 0, ["X"]⟩ 100 (c6log "error")).1.errorCounts =
        [("X", 1)]) := by
  have H := anomaly_window_threshold "X" 0 c6pairs
    (by intro e he; fin_cases he <;> rfl)
    (by intro e he; fin_cases he <;> decide)
    (by intro e he; fin_cases he <;> norm_num [errorWindow])
  constructor
  · rw [H.1]
    norm_num [c6pairs, errorThreshold]
  · have h2 := H.2 ⟨[("X", 7)], 0, ["X"]⟩ 100 (c6log "error")
      (by show (100:ℚ) - 0 > errorWindow; norm_num [errorWindow])
    refine ⟨h2.1, ?_, ?_⟩
    · rw [h2.2.1]
      simp [errorThreshold]
    · rw [h2.2.2]
      rw [if_pos (by decide)]
      rfl

/-! ### What `_trigger_alert` actually does (C7)

`AnomalyDetector._trigger_alert` logs a warning and calls
`telegram_service.send_message(...)` directly.  It never calls
`NotificationService.send`, never constructs a `Notification`, and
never touches the `NotificationQueue`.  The combined step below runs
the detector next to a notification-queue snapshot to make that
explicit. -/

/-- One `process_log` step observed together with the notification
queue: the queue is passed through untouched (no code path from the
detector reaches `NotificationQueue.enqueue`), and the only side
effect is the optional Telegram message. -/
def processLogWithQueue (st : DetectorState) (q : NQueue) (now : ℚ)
    (log : LogEntry) : (DetectorState × NQueue) × Option String :=
  let r := processLog st now log
  ((r.1, q), r.2)

/-- Run the detector beside the notification queue, collecting the
Telegram messages sent. -/
def runDetectorWithQueue (st : DetectorState) (q : NQueue) :
    List (ℚ × LogEntry) → (DetectorState × NQueue) × List String
  | [] => ((st, q), [])
  | e :: rest =>
      let r := processLogWithQueue st q e.1 e.2
      let rr := runDetectorWithQueue r.1.1 r.1.2 rest
      (rr.1, r.2.toList ++ rr.2)

theorem runDetectorWithQueue_queue (pairs : List (ℚ × LogEntry)) :
    ∀ (st : DetectorState) (q : NQueue),
      (runDetectorWithQueue st q pairs).1.2 = q ∧
      (runDetectorWithQueue st q pairs).2 = (runDetector st pairs).2 := by
  induction pairs with
  | nil => intro st q; exact ⟨rfl, rfl⟩
  | cons e rest ih =>
      intro st q
      have h := ih (processLog st e.1 e.2).1 q
      exact ⟨h.1, by
        show (processLog st e.1 e.2).2.toList ++
            (runDetectorWithQueue (processLog st e.1 e.2).1 q rest).2 = _
        rw [h.2]
        rfl⟩

/-- **C7 (amended).** When a service's error counter reaches the
threshold within a window and the service is not yet alerted, the
detector raises its alert by calling `telegram_service.send_message`
*directly*: across the whole window exactly one Telegram message is
sent, its text contains the service name and the error count, and the
`NotificationQueue` is left untouched — no notification (CRITICAL or
otherwise) is enqueued, because `_trigger_alert` bypasses
`NotificationService.send` entirely. -/
theorem anomaly_alert_via_telegram (s : String) (t0 : ℚ) (q : NQueue)
    (pairs : List (ℚ × LogEntry))
    (hsvc : ∀ e ∈ pairs, e.2.service = s)
    (herr : ∀ e ∈ pairs, isErrorLevel e.2.level = true)
    (htm : ∀ e ∈ pairs, e.1 - t0 ≤ errorWindow)
    (hlen : errorThreshold ≤ pairs.length) :
    (runDetectorWithQueue ⟨[], t0, []⟩ q pairs).1.2 = q ∧
    (runDetectorWithQueue ⟨[], t0, []⟩ q pairs).2 =
      [triggerAlertMessage s errorThreshold] ∧
    (∃ a b : String, triggerAlertMessage s errorThreshold = a ++ s ++ b) ∧
    (∃ a b : String, triggerAlertMessage s errorThreshold =
      a ++ toString errorThreshold ++ b) := by
  have hq := runDetectorWithQueue_queue pairs ⟨[], t0, []⟩ q
  refine ⟨hq.1, ?_, ?_, ?_⟩
  · rw [hq.2, (anomaly_window_threshold s t0 pairs hsvc herr htm).1, if_pos hlen]
  · exact ⟨"🚨 *Anomaly Detected*\nService: ",
      "\nErrors: " ++ (toString errorThreshold ++
        (" in last minute\nThreshold: " ++ toString errorThreshold)), rfl⟩
  · refine ⟨"🚨 *Anomaly Detected*\nService: " ++ s ++ "\nErrors: ",
      " in last minute\nThreshold: " ++ toString errorThreshold, ?_⟩
    unfold triggerAlertMessage
    simp [String.append_assoc]

/-- A pending LOW notification sitting in the queue while the
detector runs. -/
def qc7 : NQueue :=
  [((3 : ℚ), ⟨"q-1", "pending", "m", .low, [.telegram], [], "", 0, 3⟩)]

/-- Witness for C7 (amended): the ten-error run for `"X"` beside a
queue holding one pending notification sends exactly one Telegram
alert and leaves the queue as it was. -/
theorem anomaly_alert_via_telegram_witness :
    (runDetectorWithQueue ⟨[], 0, []⟩ qc7 c6pairs).1.2 = qc7 ∧
    (runDetectorWithQueue ⟨[], 0, []⟩ qc7 c6pairs).2 =
      [triggerAlertMessage "X" 10] ∧
    (∃ a b : String, triggerAlertMessage "X" 10 = a ++ "X" ++ b) ∧
    (∃ a b : String, triggerAlertMessage "X" 10 = a ++ toString 10 ++ b) :=
  anomaly_alert_via_telegram "X" 0 qc7 c6pairs
    (by intro e he; fin_cases he <;> rfl)
    (by intro e he; fin_cases he <;> decide)
    (by intro e he; fin_cases he <;> norm_num [errorWindow])
    (by norm_num [c6pairs, errorThreshold])

/-- Counterexample to C7 as stated: running the full ten-error window
for service `"X"` against an *empty* `NotificationQueue` leaves the
queue empty — no notification of any priority is ever enqueued,
because `_trigger_alert` calls `telegram_service.send_message`
directly and never goes through `NotificationService.send` /
`NotificationQueue.enqueue`; the alert reaches Telegram only. -/
theorem anomaly_alert_enqueue_counterexample :
    (runDetectorWithQueue ⟨[], 0, []⟩ [] c6pairs).1.2 = [] ∧
    (runDetectorWithQueue ⟨[], 0, []⟩ [] c6pairs).2 =
      [triggerAlertMessage "X" 10] := by
  have hq := runDetectorWithQueue_queue c6pairs ⟨[], 0, []⟩ []
  refine ⟨hq.1, ?_⟩
  rw [hq.2]
  have hrun := (runDetector_from "X" 0 c6pairs 0
    (by intro e he; fin_cases he <;> rfl)
    (by intro e he; fin_cases he <;> decide)
    (by intro e he; fin_cases he <;> norm_num [errorWindow])).2
  rw [show stateAfter "X" 0 0 = (⟨[], 0, []⟩ : DetectorState) from rfl] at hrun
  rw [hrun, if_pos (⟨by norm_num [errorThreshold],
    by norm_num [c6pairs, errorThreshold]⟩ :
      0 < errorThreshold ∧ errorThreshold ≤ 0 + c6pairs.length)]
  rfl

/-! ## Stream buffering (`StreamingService.buffer_log` /
`_flush_buffer`) -/

/-- `BATCH_SIZE = 100`. -/
def batchSize : ℕ := 100

/-- `self._flush_interval = 5.0` seconds. -/
def flushInterval : ℚ := 5

/-- Buffering state: `self._buffer`, `self._last_flush`, and the
batches published to the stream so far (each `_flush_buffer` appends
one batch via `publish_batch`). -/
structure BufferState where
  buffer : List LogEntry
  lastFlush : ℚ
  published : List (List LogEntry)
deriving DecidableEq, Repr

/-- `StreamingService.buffer_log` at wall-clock time `now`: append to
the buffer; then, if the buffer reached `BATCH_SIZE` or more than
`_flush_interval` elapsed since the last flush, `_flush_buffer`
(publish the whole buffer as one batch, clear it, stamp
`_last_flush = now`).  No other code path flushes: there is no timer —
a flush can only happen inside a `buffer_log` call. -/
def bufferLog (st : BufferState) (now : ℚ) (log : LogEntry) : BufferState :=
  let buf := st.buffer ++ [log]
  if batchSize ≤ buf.length ∨ flushInterval < now - st.lastFlush then
    ⟨[], now, st.published ++ [buf]⟩
  else
    ⟨buf, st.lastFlush, st.published⟩

/-- A sequence of `buffer_log` calls given as `(time, entry)` pairs. -/
def runBuffer (st : BufferState) (es : List (ℚ × LogEntry)) : BufferState :=
  es.foldl (fun st e => bufferLog st e.1 e.2) st

theorem runBuffer_no_flush (es : List (ℚ × LogEntry)) :
    ∀ st : BufferState,
      (∀ e ∈ es, e.1 - st.lastFlush ≤ flushInterval) →
      st.buffer.length + es.length < batchSize →
      runBuffer st es = ⟨st.buffer ++ es.map Prod.snd, st.lastFlush, st.published⟩ := by
  induction es with
  | nil => intro st _ _; simp [runBuffer]
  | cons e rest ih =>
      intro st htm hlen
      have hstep : bufferLog st e.1 e.2 =
          ⟨st.buffer ++ [e.2], st.lastFlush, st.published⟩ := by
        unfold bufferLog
        rw [if_neg]
        push_neg
        constructor
        · simp only [List.length_append, List.length_singleton]
          simp only [List.length_cons] at hlen
          omega
        · exact htm e (List.mem_cons_self e rest)
      have hrun : runBuffer st (e :: rest) =
          runBuffer (bufferLog st e.1 e.2) rest := rfl
      rw [hrun, hstep]
      rw [ih ⟨st.buffer ++ [e.2], st.lastFlush, st.published⟩
        (fun x hx => htm x (List.mem_cons_of_mem e hx))
        (by simp only [List.length_append, List.length_singleton]
            simp only [List.length_cons] at hlen
            omega)]
      simp

/-- **C8 (amended).** With `batchSize = 100` and `flushInterval = 5 s`,
starting from a freshly flushed buffer (empty, last flush at `t0`):
buffering up to 99 entries at times within the interval publishes
nothing and leaves them all buffered (first conjunct); the 100th entry
triggers a flush publishing all 100 as one batch and emptying the
buffer (second conjunct); and a single entry buffered at a time more
than `flushInterval` after the last flush is flushed immediately, on
its own (third conjunct).  There is no timer: an entry sitting in a
non-full buffer is flushed only by the next `buffer_log` call after
the interval has elapsed, together with that call's entry. -/
theorem buffer_flush_boundaries (es : List (ℚ × LogEntry)) (t0 t : ℚ)
    (P : List (List LogEntry)) (e : LogEntry)
    (htm : ∀ x ∈ es, x.1 - t0 ≤ flushInterval) :
    (es.length < batchSize →
      runBuffer ⟨[], t0, P⟩ es = ⟨es.map Prod.snd, t0, P⟩) ∧
    (es.length + 1 = batchSize →
      runBuffer ⟨[], t0, P⟩ (es ++ [(t, e)]) =
        ⟨[], t, P ++ [es.map Prod.snd ++ [e]]⟩) ∧
    (flushInterval < t - t0 →
      bufferLog ⟨[], t0, P⟩ t e = ⟨[], t, P ++ [[e]]⟩) := by
  refine ⟨?_, ?_, ?_⟩
  · intro hlen
    rw [runBuffer_no_flush es ⟨[], t0, P⟩ htm (by simpa using hlen)]
    simp
  · intro hlen
    have hsplit : runBuffer ⟨[], t0, P⟩ (es ++ [(t, e)]) =
        bufferLog (runBuffer ⟨[], t0, P⟩ es) t e := by
      unfold runBuffer
      rw [List.foldl_append]
      rfl
    rw [hsplit, runBuffer_no_flush es ⟨[], t0, P⟩ htm (by simp; omega)]
    unfold bufferLog
    rw [if_pos]
    · simp
    · left
      simp only [List.nil_append, List.length_append, List.length_map,
        List.length_singleton]
      omega
  · intro hlate
    unfold bufferLog
    rw [if_pos (Or.inr (by simpa using hlate))]
    simp

/-- A log entry used in the concrete buffering runs. -/
def bufEntry : LogEntry :=
  ⟨"2024-01-01T00:00:00", "api", "info", "hello", "", []⟩

/-- A second, distinct log entry used in the concrete buffering runs. -/
def bufEntry2 : LogEntry :=
  ⟨"2024-01-01T00:00:01", "api", "info", "world", "", []⟩

/-- Witness for C8 (amended): 99 entries at time 1 flush nothing; the
100th (at time 2) flushes all 100 as one batch; one entry arriving at
time 50 against a buffer last flushed at 0 is flushed alone at once. -/
theorem buffer_flush_boundaries_witness :
    runBuffer ⟨[], 0, []⟩ (List.replicate 99 ((1 : ℚ), bufEntry)) =
      ⟨List.replicate 99 bufEntry, 0, []⟩ ∧
    runBuffer ⟨[], 0, []⟩
        (List.replicate 99 ((1 : ℚ), bufEntry) ++ [((2 : ℚ), bufEntry2)]) =
      ⟨[], 2, [List.replicate 99 bufEntry ++ [bufEntry2]]⟩ ∧
    bufferLog ⟨[], 0, []⟩ 50 bufEntry = ⟨[], 50, [[bufEntry]]⟩ := by
  have htm : ∀ x ∈ List.replicate 99 ((1 : ℚ), bufEntry),
      x.1 - 0 ≤ flushInterval := by
    intro x hx
    rw [List.eq_of_mem_replicate hx]
    norm_num [flushInterval]
  have H2 := buffer_flush_boundaries (List.replicate 99 ((1 : ℚ), bufEntry))
    0 2 [] bufEntry2 htm
  have H3 := buffer_flush_boundaries (List.replicate 99 ((1 : ℚ), bufEntry))
    0 50 [] bufEntry htm
  refine ⟨?_, ?_, ?_⟩
  · rw [H2.1 (by norm_num [batchSize])]
    simp
  · rw [H2.2.1 (by simp [batchSize])]
    simp
  · exact H3.2.2 (by norm_num [flushInterval])

/-- Counterexample to C8 as stated: buffering one entry at time 0
(fresh buffer, last flush at 0) publishes nothing, and nothing is
published while waiting either — the code has no timer, so no flush
can happen between `buffer_log` calls.  The first flush happens at
the *next* call (here at time 10, past the 5 s interval) and publishes
*both* entries as one batch, not "that single entry". -/
theorem buffer_flush_boundaries_counterexample :
    (bufferLog ⟨[], 0, []⟩ 0 bufEntry).published = [] ∧
    (bufferLog ⟨[], 0, []⟩ 0 bufEntry).buffer = [bufEntry] ∧
    bufferLog (bufferLog ⟨[], 0, []⟩ 0 bufEntry) 10 bufEntry2 =
      ⟨[], 10, [[bufEntry, bufEntry2]]⟩ := by
  have h1 : bufferLog ⟨[], 0, []⟩ 0 bufEntry = ⟨[bufEntry], 0, []⟩ := by
    unfold bufferLog
    rw [if_neg]
    · simp
    · push_neg
      constructor
      · simp [batchSize]
      · norm_num [flushInterval]
  refine ⟨by rw [h1], by rw [h1], ?_⟩
  rw [h1]
  unfold bufferLog
  rw [if_pos (Or.inr (by norm_num [flushInterval]))]
  simp

end AiOps
